import Mathlib

/-!
Shallow embedding of the numprint digit pretty-printing package
(source file `print.go`) together with proofs about its documented
behaviour.

The source file contains the capability interfaces (`Printable`,
`Writable`), the option builders, `mutateSettings`, `endOf`,
`fromIterator`, `fromSequenceWithPositions` and the entry points
`Fprint`, `Fwrite`, `Sprint`, `Swrite`.  The layout engine itself
(the `printer` type with `newPrinter`, `Consume`, `CanConsume`,
`Finish`, `BytesWritten`, `Err`), the `printerSettings` record and the
`Positions` range-set type are declared in a different file of the
repository; they are modelled here from the specification (sections
3, 4.1, 4.4) and each such definition carries a doc comment starting
with "Modelled from the spec:".

Lazy Go iterators (`iter.Seq2[int, int]`) are embedded as finite
lists of (position, digit) pairs; the driving loops are embedded as
structural recursion over those lists.  Where a claim is about which
elements are pulled or which calls are made, the recursions carry a
ghost trace recording exactly the calls the Go loop performs; the
traced function is the embedding and the untraced one is its first
projection.
-/

/-- Modelled from the spec: the destination sink (Go `io.Writer`,
missing from the source file as a concrete type).  A sink is a state
type `σ` plus a write operation which, per write, returns the new
state, the count of bytes accepted, and a success flag (`true` means
the whole string was accepted; `false` is a write error). -/
structure Sink (σ : Type) where
  write : σ → String → σ × Nat × Bool

/-- Sink that never fails: every write reports success. -/
def NoFail {σ : Type} (snk : Sink σ) : Prop :=
  ∀ st s, (snk.write st s).2.2 = true

/-- Modelled from the spec: the in-memory string sink used by `Sprint`
and `Swrite` (Go `strings.Builder`): appends every write to the
accumulated string, accepts all bytes, and never fails. -/
def builderSink : Sink String :=
  ⟨fun st s => (st ++ s, s.utf8ByteSize, true)⟩

/-- Modelled from the spec: the settings record (`printerSettings`,
whose struct declaration is missing from the source file; its fields
are those mutated by the option builders in the source).  The default
field values are Go's zero values, as in a Go struct literal that
omits the field. -/
structure printerSettings where
  digitsPerRow : Int := 0
  digitsPerColumn : Int := 0
  showCount : Bool := false
  missingDigit : Char := Char.ofNat 0
  trailingLineFeed : Bool := false
  leadingDecimal : Bool := false
  bufferSize : Int := 0
deriving DecidableEq

/-- Options for printing.  Go's `Option` is an interface produced only
by the seven builders in the source file; the embedding enumerates
exactly those builders (constructor names are the Go builder names;
the type is `OptionM` because `Option` is taken in Lean). -/
inductive OptionM where
  | DigitsPerRow (count : Int)
  | DigitsPerColumn (count : Int)
  | ShowCount (flag : Bool)
  | MissingDigit (missingDigit : Char)
  | TrailingLF (flag : Bool)
  | LeadingDecimal (flag : Bool)
  | bufferSize (size : Int)
deriving DecidableEq

/-- Mutation performed by each option, from the bodies of the option
builders in the source file: each builder sets exactly one field. -/
def OptionM.mutate : OptionM → printerSettings → printerSettings
  | DigitsPerRow count, p => { p with digitsPerRow := count }
  | DigitsPerColumn count, p => { p with digitsPerColumn := count }
  | ShowCount flag, p => { p with showCount := flag }
  | MissingDigit missingDigit, p => { p with missingDigit := missingDigit }
  | TrailingLF flag, p => { p with trailingLineFeed := flag }
  | LeadingDecimal flag, p => { p with leadingDecimal := flag }
  | bufferSize size, p => { p with bufferSize := size }

/-- Embedding of `mutateSettings` from the source file: apply each
option in list order to the seeded settings record. -/
def mutateSettings (options : List OptionM) (settings : printerSettings) :
    printerSettings :=
  options.foldl (fun s o => o.mutate s) settings

/-- Modelled from the spec: the layout engine state (`printer`,
missing from the source file): sink state, running byte count, first
error flag, cursor (next position expected), the extent, and the
settings.  `rendered` is a ghost trace listing, in emission order, the
positions for which a digit slot (real digit or placeholder glyph)
was successfully submitted to the sink; it records the "emit the
digit character" step of the per-digit algorithm and influences
nothing. -/
structure printer (σ : Type) where
  sinkState : σ
  bytesWritten : Nat
  errored : Bool
  cursor : Nat
  extent : Nat
  settings : printerSettings
  rendered : List Nat
deriving DecidableEq

/-- Modelled from the spec: write a string to the sink through the
engine.  Once the first error has occurred nothing more is written;
otherwise the byte count grows by the bytes the sink accepted and the
error flag is raised if the write failed. -/
def emit {σ : Type} (snk : Sink σ) (p : printer σ) (s : String) : printer σ :=
  if p.errored then p
  else
    { p with
      sinkState := (snk.write p.sinkState s).1,
      bytesWritten := p.bytesWritten + (snk.write p.sinkState s).2.1,
      errored := !(snk.write p.sinkState s).2.2 }

/-- Modelled from the spec: the character emitted for digit `d`
(`'0'` + d for digits 0-9). -/
def digitChar (d : Nat) : Char := Char.ofNat (48 + d)

/-- Modelled from the spec: emit one digit-slot character and record
the position in the ghost `rendered` trace when the write succeeds. -/
def emitSlot {σ : Type} (snk : Sink σ) (p : printer σ) (pos : Nat) (c : Char) :
    printer σ :=
  if p.errored then p
  else
    { p with
      sinkState := (snk.write p.sinkState (String.mk [c])).1,
      bytesWritten := p.bytesWritten + (snk.write p.sinkState (String.mk [c])).2.1,
      errored := !(snk.write p.sinkState (String.mk [c])).2.2,
      rendered :=
        if (snk.write p.sinkState (String.mk [c])).2.2 then p.rendered ++ [pos]
        else p.rendered }

/-- Modelled from the spec: position `pos` starts a new row when it is
a multiple of `digitsPerRow`, or when `digitsPerRow ≤ 0` and it is the
very first position. -/
def rowStart (st : printerSettings) (pos : Nat) : Bool :=
  if 0 < st.digitsPerRow then pos % st.digitsPerRow.toNat == 0 else pos == 0

/-- Modelled from the spec: index of the position within its row
(`digitsPerRow ≤ 0` means a single unbounded row). -/
def posInRow (st : printerSettings) (pos : Nat) : Nat :=
  if 0 < st.digitsPerRow then pos % st.digitsPerRow.toNat else pos

/-- Modelled from the spec: position `pos` completes a row. -/
def rowComplete (st : printerSettings) (pos : Nat) : Bool :=
  if 0 < st.digitsPerRow then (pos + 1) % st.digitsPerRow.toNat == 0 else false

/-- Modelled from the spec: a single space separates a completed
column from the next, unless the column is also the last of its row. -/
def colSep (st : printerSettings) (pos : Nat) : Bool :=
  if 0 < st.digitsPerColumn then
    ((posInRow st pos + 1) % st.digitsPerColumn.toNat == 0) && !(rowComplete st pos)
  else false

/-- Modelled from the spec: an internal row break follows every
completed row except the very last position of the extent, whose
trailing break is governed by `trailingLineFeed` at `Finish`. -/
def innerRowBreak (st : printerSettings) (extent pos : Nat) : Bool :=
  rowComplete st pos && (pos + 1 != extent)

/-- Modelled from the spec: the count margin for a row starting at
`pos`, right-justified to a width sufficient for the largest count
(derived from the extent; the spec leaves the exact padding width and
separator open, so a fixed representative choice is made). -/
def marginText (extent pos : Nat) : String :=
  String.mk (List.replicate ((toString extent).length - (toString pos).length) ' ')
    ++ toString pos ++ "  "

/-- Modelled from the spec: the per-digit rendering algorithm (spec
section 4.4, steps 1-5), applied once per position whether real or
placeholder: optional leading "0." at position 0, optional count
margin at a row start, the digit-slot character, optional column
separator, optional internal row break. -/
def renderAt {σ : Type} (snk : Sink σ) (p : printer σ) (pos : Nat) (c : Char) :
    printer σ :=
  let p1 := if p.settings.leadingDecimal && (pos == 0) then emit snk p "0." else p
  let p2 := if p.settings.showCount && rowStart p.settings pos then
      emit snk p1 (marginText p.extent pos)
    else p1
  let p3 := emitSlot snk p2 pos c
  let p4 := if colSep p.settings pos then emit snk p3 " " else p3
  if innerRowBreak p.settings p.extent pos then emit snk p4 "\n" else p4

/-- Modelled from the spec: render `n` consecutive missing-digit
placeholders starting at the cursor, advancing the cursor by one per
placeholder. -/
def padN {σ : Type} (snk : Sink σ) : Nat → printer σ → printer σ
  | 0, p => p
  | n + 1, p =>
      padN snk n
        { renderAt snk p p.cursor p.settings.missingDigit with cursor := p.cursor + 1 }

/-- Modelled from the spec: `CanConsume` returns false once the first
write error has occurred or once the cursor has reached the extent. -/
def CanConsume {σ : Type} (p : printer σ) : Bool :=
  !p.errored && decide (p.cursor < p.extent)

/-- Modelled from the spec: `Consume(position, digit)` requires
`position ≥ cursor`; a smaller position is the rejected
monotonic-consumption caller error (modelled as raising the error
flag).  Otherwise the gap up to `position` is filled with placeholder
renderings, the digit is rendered at `position`, and the cursor moves
to `position + 1`. -/
def Consume {σ : Type} (snk : Sink σ) (p : printer σ) (posit digit : Nat) :
    printer σ :=
  if posit < p.cursor then { p with errored := true }
  else
    { renderAt snk (padN snk (posit - p.cursor) p) posit (digitChar digit) with
      cursor := posit + 1 }

/-- Modelled from the spec: `Finish` pads with placeholders up to the
extent, then appends one trailing line break when configured. -/
def Finish {σ : Type} (snk : Sink σ) (p : printer σ) : printer σ :=
  if p.settings.trailingLineFeed then emit snk (padN snk (p.extent - p.cursor) p) "\n"
  else padN snk (p.extent - p.cursor) p

/-- Modelled from the spec: `newPrinter(w, end, settings)` starts with
cursor 0, no bytes written, no error, and the given extent. -/
def newPrinter {σ : Type} (w : σ) (endPos : Nat) (settings : printerSettings) :
    printer σ :=
  { sinkState := w, bytesWritten := 0, errored := false, cursor := 0,
    extent := endPos, settings := settings, rendered := [] }

/-- Modelled from the spec: total bytes written accessor. -/
def BytesWritten {σ : Type} (p : printer σ) : Nat := p.bytesWritten

/-- Modelled from the spec: first-error accessor (`true` iff a write
failed, surfaced as the invocation's error result). -/
def Err {σ : Type} (p : printer σ) : Bool := p.errored

/-- Embedding of the `Printable` capability: `s a b` is the lazy
sequence `AllInRange(a, b)` embedded as the finite list of
(position, digit) pairs it yields. -/
abbrev Printable := Nat → Nat → List (Nat × Nat)

/-- Embedding of the `Writable` capability: `All` and `Backward` are
the two traversals embedded as the finite lists they yield. -/
structure Writable where
  All : List (Nat × Nat)
  Backward : List (Nat × Nat)
deriving DecidableEq

/-- Modelled from the spec: one `[Start, End)` range of positions
(the `Positions` range-set type is missing from the source file). -/
structure PositionRange where
  Start : Nat
  End : Nat
deriving DecidableEq

/-- Modelled from the spec: a position range set is the ordered list
of ranges its `All()` iteration yields. -/
abbrev Positions := List PositionRange

/-- Modelled from the spec: `Positions.End` (the extent) is the
maximum `End` over all ranges, 0 for the empty set. -/
def Positions.End (ps : Positions) : Nat :=
  ps.foldl (fun acc r => max acc r.End) 0

/-- Embedding of `endOf` from the source file: the first pair of the
backward traversal gives position + 1; an empty traversal gives 0. -/
def endOf (s : Writable) : Nat :=
  match s.Backward with
  | [] => 0
  | (index, _) :: _ => index + 1

/-- Instrumented `endOf`: same computation, second component counts
how many elements were pulled from the backward traversal (the Go
`for range` loop returns inside its first iteration). -/
def endOfAux : List (Nat × Nat) → Nat × Nat
  | [] => (0, 0)
  | (index, _) :: _ => (index + 1, 1)

/-- Loop body of `fromIterator` from the source file (the part after
the entry guard): pull a pair, call `Consume`, return as soon as
`CanConsume` is false.  The second component is a ghost trace of the
`Consume` calls: the engine state just before each call together with
the pair passed. -/
def fromIteratorGo {σ : Type} (snk : Sink σ) :
    List (Nat × Nat) → printer σ → printer σ × List (printer σ × (Nat × Nat))
  | [], p => (p, [])
  | (posit, digit) :: rest, p =>
      let p1 := Consume snk p posit digit
      if CanConsume p1 = false then (p1, [(p, (posit, digit))])
      else
        let r := fromIteratorGo snk rest p1
        (r.1, (p, (posit, digit)) :: r.2)

/-- Embedding of `fromIterator` from the source file, with the ghost
trace of `Consume` calls: return immediately when `CanConsume` is
false at entry, otherwise run the loop. -/
def fromIteratorAux {σ : Type} (snk : Sink σ) (it : List (Nat × Nat))
    (p : printer σ) : printer σ × List (printer σ × (Nat × Nat)) :=
  if CanConsume p = false then (p, []) else fromIteratorGo snk it p

/-- Embedding of `fromIterator` from the source file (engine state
only). -/
def fromIterator {σ : Type} (snk : Sink σ) (it : List (Nat × Nat))
    (p : printer σ) : printer σ :=
  (fromIteratorAux snk it p).1

/-- Embedding of `fromSequenceWithPositions` from the source file,
instrumented: for each range of the set, in order, `AllInRange` is
invoked and `fromIterator` is run on the resulting sequence.  The
second component records one entry per `AllInRange` invocation: the
engine state just before it, the range, and the trace of `Consume`
calls made on that range's sequence. -/
def fromSeqAux {σ : Type} (snk : Sink σ) (s : Printable) :
    List PositionRange → printer σ →
      printer σ × List (printer σ × (PositionRange × List (printer σ × (Nat × Nat))))
  | [], p => (p, [])
  | pr :: rest, p =>
      let r := fromIteratorAux snk (s pr.Start pr.End) p
      let r2 := fromSeqAux snk s rest r.1
      (r2.1, (p, (pr, r.2)) :: r2.2)

/-- Embedding of `fromSequenceWithPositions` from the source file
(engine state only). -/
def fromSequenceWithPositions {σ : Type} (snk : Sink σ) (s : Printable)
    (ps : Positions) (p : printer σ) : printer σ :=
  (fromSeqAux snk s ps p).1

/-- Settings literal seeded by `Fprint` in the source file (omitted
fields keep their Go zero value). -/
def fprintDefaults : printerSettings :=
  { digitsPerRow := 50, digitsPerColumn := 5, showCount := true,
    missingDigit := '.', leadingDecimal := true }

/-- Settings literal seeded by `Fwrite` in the source file (omitted
fields keep their Go zero value). -/
def fwriteDefaults : printerSettings :=
  { digitsPerRow := 50, digitsPerColumn := 5, showCount := true,
    missingDigit := '.', trailingLineFeed := true }

/-- Embedding of `Fprint` from the source file, returning the final
engine state: build settings, construct the engine with the range
set's extent, drive it from the range queries, call `Finish`. -/
def FprintRun {σ : Type} (snk : Sink σ) (w : σ) (s : Printable) (ps : Positions)
    (options : List OptionM) : printer σ :=
  Finish snk
    (fromSequenceWithPositions snk s ps
      (newPrinter w (Positions.End ps) (mutateSettings options fprintDefaults)))

/-- Embedding of `Fprint`'s return value: bytes written and error. -/
def Fprint {σ : Type} (snk : Sink σ) (w : σ) (s : Printable) (ps : Positions)
    (options : List OptionM) : Nat × Bool :=
  (BytesWritten (FprintRun snk w s ps options), Err (FprintRun snk w s ps options))

/-- Embedding of `Fwrite` from the source file, returning the final
engine state: build settings, construct the engine with the extent
computed by `endOf`, drive it from the full forward traversal, call
`Finish`. -/
def FwriteRun {σ : Type} (snk : Sink σ) (w : σ) (ws : Writable)
    (options : List OptionM) : printer σ :=
  Finish snk
    (fromIterator snk ws.All
      (newPrinter w (endOf ws) (mutateSettings options fwriteDefaults)))

/-- Embedding of `Fwrite`'s return value: bytes written and error. -/
def Fwrite {σ : Type} (snk : Sink σ) (w : σ) (ws : Writable)
    (options : List OptionM) : Nat × Bool :=
  (BytesWritten (FwriteRun snk w ws options), Err (FwriteRun snk w ws options))

/-- Embedding of `Sprint` from the source file: run `Fprint` against a
fresh in-memory string builder and return the accumulated string; the
(bytes, error) result is dropped. -/
def Sprint (s : Printable) (ps : Positions) (options : List OptionM) : String :=
  (FprintRun builderSink "" s ps options).sinkState

/-- Embedding of `Swrite` from the source file: run `Fwrite` against a
fresh in-memory string builder and return the accumulated string; the
(bytes, error) result is dropped. -/
def Swrite (ws : Writable) (options : List OptionM) : String :=
  (FwriteRun builderSink "" ws options).sinkState

/-- Contract of the `Printable` capability (source doc comment of
`AllInRange`): each range query yields pairs in strictly ascending
position order, with positions inside `[start, end)`. -/
def PrintableOk (s : Printable) : Prop :=
  ∀ a b : Nat,
    List.Pairwise (fun x y : Nat × Nat => x.1 < y.1) (s a b) ∧
      ∀ pr ∈ s a b, a ≤ pr.1 ∧ pr.1 < b

/-- Contract of a position range set (spec sections 3 and 4.1):
well-formed ranges (`Start ≤ End`) that are disjoint and in order. -/
def PositionsOk (ps : Positions) : Prop :=
  List.Pairwise (fun r₁ r₂ : PositionRange => r₁.End ≤ r₂.Start) ps ∧
    ∀ r ∈ ps, r.Start ≤ r.End

/-- Contract of the `Writable` capability (source doc comments of
`All` and `Backward`): the forward traversal is strictly ascending and
the backward traversal yields the same pairs in reverse order. -/
def WritableOk (ws : Writable) : Prop :=
  List.Pairwise (fun x y : Nat × Nat => x.1 < y.1) ws.All ∧
    ws.Backward = ws.All.reverse

/-- Overwrite only the bufferSize field of the settings carried by an
engine state (used to state that the buffer-size hint is inert). -/
def setBuf {σ : Type} (b : Int) (p : printer σ) : printer σ :=
  { p with settings := { p.settings with bufferSize := b } }

/-- Concrete source for exercising the range-driving loop: every range
query yields a single pair at the range start. -/
def cexSource : Printable := fun a _ => [(a, 1)]

/-- Concrete two-range position set. -/
def cexPs : Positions := [⟨0, 1⟩, ⟨1, 2⟩]

/-- Concrete engine state with extent 0, for which `CanConsume` is
false from the start. -/
def cexPrinter : printer String := newPrinter "" 0 fprintDefaults

/-- First trace entry produced by driving `cexPs` from `cexPrinter`. -/
def cexEntry :
    printer String × (PositionRange × List (printer String × (Nat × Nat))) :=
  (cexPrinter, (⟨0, 1⟩, []))

/-- Names of the seven settings fields, for stating which field an
option touches. -/
inductive SField where
  | rowF
  | colF
  | showCountF
  | missingF
  | trailingF
  | leadingF
  | bufF
deriving DecidableEq

/-- Value of a settings field (the fields have three different Go
types). -/
inductive SFieldVal where
  | ofInt (i : Int)
  | ofBool (b : Bool)
  | ofChar (c : Char)
deriving DecidableEq

/-- The one field each option builder mutates. -/
def OptionM.target : OptionM → SField
  | DigitsPerRow _ => SField.rowF
  | DigitsPerColumn _ => SField.colF
  | ShowCount _ => SField.showCountF
  | MissingDigit _ => SField.missingF
  | TrailingLF _ => SField.trailingF
  | LeadingDecimal _ => SField.leadingF
  | bufferSize _ => SField.bufF

/-- The value each option builder stores into its target field. -/
def OptionM.payload : OptionM → SFieldVal
  | DigitsPerRow count => SFieldVal.ofInt count
  | DigitsPerColumn count => SFieldVal.ofInt count
  | ShowCount flag => SFieldVal.ofBool flag
  | MissingDigit missingDigit => SFieldVal.ofChar missingDigit
  | TrailingLF flag => SFieldVal.ofBool flag
  | LeadingDecimal flag => SFieldVal.ofBool flag
  | bufferSize size => SFieldVal.ofInt size

/-- Read a settings field by name. -/
def readField : SField → printerSettings → SFieldVal
  | SField.rowF, p => SFieldVal.ofInt p.digitsPerRow
  | SField.colF, p => SFieldVal.ofInt p.digitsPerColumn
  | SField.showCountF, p => SFieldVal.ofBool p.showCount
  | SField.missingF, p => SFieldVal.ofChar p.missingDigit
  | SField.trailingF, p => SFieldVal.ofBool p.trailingLineFeed
  | SField.leadingF, p => SFieldVal.ofBool p.leadingDecimal
  | SField.bufF, p => SFieldVal.ofInt p.bufferSize

/-! Frame lemmas: which engine-state components each operation leaves
untouched. -/

@[simp] theorem emit_cursor {σ : Type} (snk : Sink σ) (p : printer σ) (s : String) :
    (emit snk p s).cursor = p.cursor := by
  cases h : p.errored <;> simp [emit, h]

@[simp] theorem emit_extent {σ : Type} (snk : Sink σ) (p : printer σ) (s : String) :
    (emit snk p s).extent = p.extent := by
  cases h : p.errored <;> simp [emit, h]

@[simp] theorem emit_settings {σ : Type} (snk : Sink σ) (p : printer σ) (s : String) :
    (emit snk p s).settings = p.settings := by
  cases h : p.errored <;> simp [emit, h]

@[simp] theorem emit_rendered {σ : Type} (snk : Sink σ) (p : printer σ) (s : String) :
    (emit snk p s).rendered = p.rendered := by
  cases h : p.errored <;> simp [emit, h]

@[simp] theorem emitSlot_cursor {σ : Type} (snk : Sink σ) (p : printer σ)
    (pos : Nat) (c : Char) : (emitSlot snk p pos c).cursor = p.cursor := by
  cases h : p.errored <;> simp [emitSlot, h]

@[simp] theorem emitSlot_extent {σ : Type} (snk : Sink σ) (p : printer σ)
    (pos : Nat) (c : Char) : (emitSlot snk p pos c).extent = p.extent := by
  cases h : p.errored <;> simp [emitSlot, h]

@[simp] theorem emitSlot_settings {σ : Type} (snk : Sink σ) (p : printer σ)
    (pos : Nat) (c : Char) : (emitSlot snk p pos c).settings = p.settings := by
  cases h : p.errored <;> simp [emitSlot, h]

theorem emit_errored {σ : Type} {snk : Sink σ} (h : NoFail snk) (p : printer σ)
    (s : String) : (emit snk p s).errored = p.errored := by
  cases hp : p.errored <;> simp [emit, hp, h p.sinkState s]

theorem emitSlot_errored {σ : Type} {snk : Sink σ} (h : NoFail snk)
    (p : printer σ) (pos : Nat) (c : Char) :
    (emitSlot snk p pos c).errored = p.errored := by
  cases hp : p.errored <;> simp [emitSlot, hp, h p.sinkState (String.mk [c])]

theorem emitSlot_rendered {σ : Type} {snk : Sink σ} (h : NoFail snk)
    (p : printer σ) (pos : Nat) (c : Char) :
    (emitSlot snk p pos c).rendered =
      if p.errored then p.rendered else p.rendered ++ [pos] := by
  cases hp : p.errored <;> simp [emitSlot, hp, h p.sinkState (String.mk [c])]

@[simp] theorem renderAt_cursor {σ : Type} (snk : Sink σ) (p : printer σ)
    (pos : Nat) (c : Char) : (renderAt snk p pos c).cursor = p.cursor := by
  unfold renderAt
  split <;> split <;> split <;> split <;> simp

@[simp] theorem renderAt_extent {σ : Type} (snk : Sink σ) (p : printer σ)
    (pos : Nat) (c : Char) : (renderAt snk p pos c).extent = p.extent := by
  unfold renderAt
  split <;> split <;> split <;> split <;> simp

@[simp] theorem renderAt_settings {σ : Type} (snk : Sink σ) (p : printer σ)
    (pos : Nat) (c : Char) : (renderAt snk p pos c).settings = p.settings := by
  unfold renderAt
  split <;> split <;> split <;> split <;> simp

theorem renderAt_errored {σ : Type} {snk : Sink σ} (h : NoFail snk)
    (p : printer σ) (pos : Nat) (c : Char) :
    (renderAt snk p pos c).errored = p.errored := by
  unfold renderAt
  split <;> split <;> split <;> split <;>
    simp [emit_errored h, emitSlot_errored h]

theorem renderAt_rendered {σ : Type} {snk : Sink σ} (h : NoFail snk)
    (p : printer σ) (pos : Nat) (c : Char) (hp : p.errored = false) :
    (renderAt snk p pos c).rendered = p.rendered ++ [pos] := by
  unfold renderAt
  split <;> split <;> split <;> split <;>
    simp [emit_errored h, emitSlot_errored h, emitSlot_rendered h, hp]

theorem padN_settings {σ : Type} (snk : Sink σ) :
    ∀ (n : Nat) (p : printer σ), (padN snk n p).settings = p.settings := by
  intro n
  induction n with
  | zero => intro p; rfl
  | succ m ih => intro p; rw [padN, ih]; simp

theorem padN_extent {σ : Type} (snk : Sink σ) :
    ∀ (n : Nat) (p : printer σ), (padN snk n p).extent = p.extent := by
  intro n
  induction n with
  | zero => intro p; rfl
  | succ m ih => intro p; rw [padN, ih]; simp

theorem padN_cursor {σ : Type} (snk : Sink σ) :
    ∀ (n : Nat) (p : printer σ), (padN snk n p).cursor = p.cursor + n := by
  intro n
  induction n with
  | zero => intro p; rfl
  | succ m ih =>
      intro p
      rw [padN, ih]
      have hc : ({ renderAt snk p p.cursor p.settings.missingDigit with
          cursor := p.cursor + 1 } : printer σ).cursor = p.cursor + 1 := rfl
      rw [hc]
      omega

theorem padN_errored {σ : Type} {snk : Sink σ} (h : NoFail snk) :
    ∀ (n : Nat) (p : printer σ), (padN snk n p).errored = p.errored := by
  intro n
  induction n with
  | zero => intro p; rfl
  | succ m ih => intro p; rw [padN, ih]; simp [renderAt_errored h]

theorem padN_rendered {σ : Type} {snk : Sink σ} (h : NoFail snk) :
    ∀ (n : Nat) (p : printer σ), p.errored = false →
      p.rendered = List.range p.cursor →
      (padN snk n p).rendered = List.range (p.cursor + n) := by
  intro n
  induction n with
  | zero => intro p _ hr; simpa using hr
  | succ m ih =>
      intro p hp hr
      rw [padN]
      have h1 : ({ renderAt snk p p.cursor p.settings.missingDigit with
          cursor := p.cursor + 1 } : printer σ).errored = false := by
        simp [renderAt_errored h, hp]
      have h2 : ({ renderAt snk p p.cursor p.settings.missingDigit with
          cursor := p.cursor + 1 } : printer σ).rendered =
          List.range (p.cursor + 1) := by
        simp [renderAt_rendered h p p.cursor _ hp, hr, List.range_succ]
      rw [ih _ h1 h2]
      have hc : ({ renderAt snk p p.cursor p.settings.missingDigit with
          cursor := p.cursor + 1 } : printer σ).cursor = p.cursor + 1 := rfl
      rw [hc]
      have e : p.cursor + 1 + m = p.cursor + (m + 1) := by omega
      rw [e]

theorem Consume_extent {σ : Type} (snk : Sink σ) (p : printer σ)
    (posit digit : Nat) : (Consume snk p posit digit).extent = p.extent := by
  unfold Consume
  split
  · rfl
  · simp [padN_extent]

theorem Consume_settings {σ : Type} (snk : Sink σ) (p : printer σ)
    (posit digit : Nat) : (Consume snk p posit digit).settings = p.settings := by
  unfold Consume
  split
  · rfl
  · simp [padN_settings]

theorem Consume_good {σ : Type} {snk : Sink σ} (h : NoFail snk) (p : printer σ)
    (posit digit : Nat) (hp : p.errored = false)
    (hr : p.rendered = List.range p.cursor) (hle : p.cursor ≤ posit) :
    (Consume snk p posit digit).errored = false ∧
      (Consume snk p posit digit).rendered = List.range (posit + 1) ∧
      (Consume snk p posit digit).cursor = posit + 1 := by
  unfold Consume
  rw [if_neg (Nat.not_lt.mpr hle)]
  have hpe : (padN snk (posit - p.cursor) p).errored = false := by
    rw [padN_errored h, hp]
  have hpc : (padN snk (posit - p.cursor) p).cursor = posit := by
    rw [padN_cursor, Nat.add_sub_cancel' hle]
  have hpr : (padN snk (posit - p.cursor) p).rendered = List.range posit := by
    rw [padN_rendered h _ _ hp hr, Nat.add_sub_cancel' hle]
  refine ⟨?_, ?_, rfl⟩
  · simp [renderAt_errored h, hpe]
  · simp [renderAt_rendered h _ _ _ hpe, hpr, hpc, List.range_succ]

theorem fromIteratorGo_extent {σ : Type} (snk : Sink σ) :
    ∀ (it : List (Nat × Nat)) (p : printer σ),
      ((fromIteratorGo snk it p).1).extent = p.extent := by
  intro it
  induction it with
  | nil => intro p; rfl
  | cons hd tl ih =>
      intro p
      obtain ⟨posit, digit⟩ := hd
      rw [fromIteratorGo]
      split
      · simp [Consume_extent]
      · simp [ih, Consume_extent]

theorem fromIteratorGo_settings {σ : Type} (snk : Sink σ) :
    ∀ (it : List (Nat × Nat)) (p : printer σ),
      ((fromIteratorGo snk it p).1).settings = p.settings := by
  intro it
  induction it with
  | nil => intro p; rfl
  | cons hd tl ih =>
      intro p
      obtain ⟨posit, digit⟩ := hd
      rw [fromIteratorGo]
      split
      · simp [Consume_settings]
      · simp [ih, Consume_settings]

theorem fromIteratorAux_extent {σ : Type} (snk : Sink σ) (it : List (Nat × Nat))
    (p : printer σ) : ((fromIteratorAux snk it p).1).extent = p.extent := by
  unfold fromIteratorAux
  split
  · rfl
  · exact fromIteratorGo_extent snk it p

theorem fromIteratorAux_settings {σ : Type} (snk : Sink σ)
    (it : List (Nat × Nat)) (p : printer σ) :
    ((fromIteratorAux snk it p).1).settings = p.settings := by
  unfold fromIteratorAux
  split
  · rfl
  · exact fromIteratorGo_settings snk it p

theorem fromSeqAux_extent {σ : Type} (snk : Sink σ) (s : Printable) :
    ∀ (ps : List PositionRange) (p : printer σ),
      ((fromSeqAux snk s ps p).1).extent = p.extent := by
  intro ps
  induction ps with
  | nil => intro p; rfl
  | cons pr rest ih =>
      intro p
      rw [fromSeqAux]
      simp [ih, fromIteratorAux_extent]

theorem fromSeqAux_settings {σ : Type} (snk : Sink σ) (s : Printable) :
    ∀ (ps : List PositionRange) (p : printer σ),
      ((fromSeqAux snk s ps p).1).settings = p.settings := by
  intro ps
  induction ps with
  | nil => intro p; rfl
  | cons pr rest ih =>
      intro p
      rw [fromSeqAux]
      simp [ih, fromIteratorAux_settings]

theorem Finish_extent {σ : Type} (snk : Sink σ) (p : printer σ) :
    (Finish snk p).extent = p.extent := by
  unfold Finish
  split <;> simp [padN_extent]

theorem Finish_settings {σ : Type} (snk : Sink σ) (p : printer σ) :
    (Finish snk p).settings = p.settings := by
  unfold Finish
  split <;> simp [padN_settings]

theorem Finish_rendered {σ : Type} {snk : Sink σ} (h : NoFail snk)
    (p : printer σ) (hp : p.errored = false)
    (hr : p.rendered = List.range p.cursor) (hle : p.cursor ≤ p.extent) :
    (Finish snk p).rendered = List.range p.extent := by
  have hpr : (padN snk (p.extent - p.cursor) p).rendered = List.range p.extent := by
    rw [padN_rendered h _ _ hp hr, Nat.add_sub_cancel' hle]
  unfold Finish
  split <;> simp [hpr]

theorem fromIteratorGo_good {σ : Type} {snk : Sink σ} (h : NoFail snk) :
    ∀ (it : List (Nat × Nat)) (p : printer σ) (B : Nat),
      p.errored = false → p.rendered = List.range p.cursor →
      List.Pairwise (fun x y : Nat × Nat => x.1 < y.1) it →
      (∀ pr ∈ it, p.cursor ≤ pr.1) → (∀ pr ∈ it, pr.1 < B) → p.cursor ≤ B →
      ((fromIteratorGo snk it p).1).errored = false ∧
        ((fromIteratorGo snk it p).1).rendered =
          List.range ((fromIteratorGo snk it p).1).cursor ∧
        ((fromIteratorGo snk it p).1).cursor ≤ B := by
  intro it
  induction it with
  | nil => intro p B hp hr _ _ _ hc; exact ⟨hp, hr, hc⟩
  | cons hd tl ih =>
      intro p B hp hr hpw hge hB hc
      obtain ⟨posit, digit⟩ := hd
      obtain ⟨hhead, htail⟩ := List.pairwise_cons.mp hpw
      obtain ⟨h1, h2, h3⟩ :=
        Consume_good h p posit digit hp hr (hge _ (List.mem_cons_self _ _))
      have hposB : posit < B := hB _ (List.mem_cons_self _ _)
      simp only [fromIteratorGo]
      by_cases hcc : CanConsume (Consume snk p posit digit) = false
      · rw [if_pos hcc]
        refine ⟨h1, ?_, ?_⟩
        · rw [h3, h2]
        · rw [h3]; omega
      · rw [if_neg hcc]
        have hge' : ∀ pr ∈ tl, (Consume snk p posit digit).cursor ≤ pr.1 := by
          intro pr hm
          rw [h3]
          exact Nat.succ_le_of_lt (hhead pr hm)
        have hB' : ∀ pr ∈ tl, pr.1 < B := fun pr hm => hB pr (List.mem_cons_of_mem _ hm)
        have hc' : (Consume snk p posit digit).cursor ≤ B := by rw [h3]; omega
        have h2' : (Consume snk p posit digit).rendered =
            List.range (Consume snk p posit digit).cursor := by rw [h3, h2]
        exact ih (Consume snk p posit digit) B h1 h2' htail hge' hB' hc'

theorem fromIteratorAux_good {σ : Type} {snk : Sink σ} (h : NoFail snk)
    (it : List (Nat × Nat)) (p : printer σ) (B : Nat)
    (hp : p.errored = false) (hr : p.rendered = List.range p.cursor)
    (hpw : List.Pairwise (fun x y : Nat × Nat => x.1 < y.1) it)
    (hge : ∀ pr ∈ it, p.cursor ≤ pr.1) (hB : ∀ pr ∈ it, pr.1 < B)
    (hc : p.cursor ≤ B) :
    ((fromIteratorAux snk it p).1).errored = false ∧
      ((fromIteratorAux snk it p).1).rendered =
        List.range ((fromIteratorAux snk it p).1).cursor ∧
      ((fromIteratorAux snk it p).1).cursor ≤ B := by
  unfold fromIteratorAux
  by_cases hcc : CanConsume p = false
  · rw [if_pos hcc]; exact ⟨hp, hr, hc⟩
  · rw [if_neg hcc]; exact fromIteratorGo_good h it p B hp hr hpw hge hB hc

theorem fromSeqAux_good {σ : Type} {snk : Sink σ} (h : NoFail snk)
    {s : Printable} (hs : PrintableOk s) :
    ∀ (ps : List PositionRange) (p : printer σ),
      List.Pairwise (fun a b : PositionRange => a.End ≤ b.Start) ps →
      (∀ r ∈ ps, r.Start ≤ r.End) →
      (∀ r ∈ ps, p.cursor ≤ r.Start) →
      (∀ r ∈ ps, r.End ≤ p.extent) →
      p.errored = false → p.rendered = List.range p.cursor →
      p.cursor ≤ p.extent →
      ((fromSeqAux snk s ps p).1).errored = false ∧
        ((fromSeqAux snk s ps p).1).rendered =
          List.range ((fromSeqAux snk s ps p).1).cursor ∧
        ((fromSeqAux snk s ps p).1).cursor ≤ p.extent := by
  intro ps
  induction ps with
  | nil => intro p _ _ _ _ hp hr hc; exact ⟨hp, hr, hc⟩
  | cons pr rest ih =>
      intro p hord hwf hcur hext hp hr hc
      obtain ⟨hordh, hordt⟩ := List.pairwise_cons.mp hord
      have hcs : p.cursor ≤ pr.Start := hcur _ (List.mem_cons_self _ _)
      have hse : pr.Start ≤ pr.End := hwf _ (List.mem_cons_self _ _)
      have hep : pr.End ≤ p.extent := hext _ (List.mem_cons_self _ _)
      obtain ⟨q1, q2, q3⟩ :=
        fromIteratorAux_good h (s pr.Start pr.End) p pr.End hp hr
          (hs pr.Start pr.End).1
          (fun x hm => le_trans hcs ((hs pr.Start pr.End).2 x hm).1)
          (fun x hm => ((hs pr.Start pr.End).2 x hm).2)
          (le_trans hcs hse)
      have he : ((fromIteratorAux snk (s pr.Start pr.End) p).1).extent = p.extent :=
        fromIteratorAux_extent snk _ p
      have hq := ih ((fromIteratorAux snk (s pr.Start pr.End) p).1)
        hordt
        (fun r hm => hwf r (List.mem_cons_of_mem _ hm))
        (fun r hm => le_trans q3 (hordh r hm))
        (fun r hm => by rw [he]; exact hext r (List.mem_cons_of_mem _ hm))
        q1 q2
        (by rw [he]; exact le_trans q3 hep)
      refine ⟨hq.1, hq.2.1, ?_⟩
      rw [← he]
      exact hq.2.2

theorem foldlMax_ge :
    ∀ (ps : List PositionRange) (a : Nat),
      a ≤ ps.foldl (fun acc r => max acc r.End) a := by
  intro ps
  induction ps with
  | nil => intro a; exact le_refl a
  | cons hd tl ih =>
      intro a
      rw [List.foldl_cons]
      exact le_trans (le_max_left a hd.End) (ih (max a hd.End))

theorem foldlMax_mem_le :
    ∀ (ps : List PositionRange) (a : Nat) (r : PositionRange), r ∈ ps →
      r.End ≤ ps.foldl (fun acc r => max acc r.End) a := by
  intro ps
  induction ps with
  | nil => intro a r hm; cases hm
  | cons hd tl ih =>
      intro a r hm
      rw [List.foldl_cons]
      rcases List.mem_cons.mp hm with he | hm'
      · subst he
        exact le_trans (le_max_right a r.End) (foldlMax_ge tl (max a r.End))
      · exact ih (max a hd.End) r hm'

theorem mem_End_le_positionsEnd (ps : Positions) (r : PositionRange)
    (hm : r ∈ ps) : r.End ≤ Positions.End ps :=
  foldlMax_mem_le ps 0 r hm

theorem mem_lt_endOf (ws : Writable) (hws : WritableOk ws) :
    ∀ pr ∈ ws.All, pr.1 < endOf ws := by
  obtain ⟨hpw, hrev⟩ := hws
  intro pr hmem
  cases hAllrev : ws.All.reverse with
  | nil =>
      have hnil : ws.All = [] := by
        have := congrArg List.reverse hAllrev
        simpa using this
      rw [hnil] at hmem
      cases hmem
  | cons hd tl =>
      obtain ⟨a, b⟩ := hd
      have hAll : ws.All = tl.reverse ++ [(a, b)] := by
        have := congrArg List.reverse hAllrev
        simpa using this
      have hend : endOf ws = a + 1 := by
        unfold endOf
        rw [hrev, hAllrev]
      rw [hAll] at hmem
      rcases List.mem_append.mp hmem with hml | hmr
      · have hpw' := hAll ▸ hpw
        rw [List.pairwise_append] at hpw'
        have hlt := hpw'.2.2 pr hml (a, b) (by simp)
        rw [hend]
        omega
      · have : pr = (a, b) := by simpa using hmr
        subst this
        rw [hend]
        omega

theorem fromIteratorGo_calls {σ : Type} (snk : Sink σ) :
    ∀ (it : List (Nat × Nat)) (p : printer σ), CanConsume p = true →
      (∀ c ∈ (fromIteratorGo snk it p).2, CanConsume c.1 = true) ∧
        ((fromIteratorGo snk it p).2.map (fun c => c.2)) =
          it.take (fromIteratorGo snk it p).2.length := by
  intro it
  induction it with
  | nil => intro p _; exact ⟨(by intro c hc; cases hc), rfl⟩
  | cons hd tl ih =>
      intro p hcp
      obtain ⟨posit, digit⟩ := hd
      simp only [fromIteratorGo]
      by_cases hcc : CanConsume (Consume snk p posit digit) = false
      · rw [if_pos hcc]
        refine ⟨?_, rfl⟩
        intro c hc
        rcases List.mem_singleton.mp hc with he
        rw [he]
        exact hcp
      · rw [if_neg hcc]
        have hcc' : CanConsume (Consume snk p posit digit) = true := by
          revert hcc
          cases CanConsume (Consume snk p posit digit) <;> simp
        obtain ⟨ih1, ih2⟩ := ih (Consume snk p posit digit) hcc'
        constructor
        · intro c hc
          rcases List.mem_cons.mp hc with he | hm
          · rw [he]; exact hcp
          · exact ih1 c hm
        · simp only [List.map_cons, List.length_cons, List.take_succ_cons]
          rw [ih2]

theorem fromIteratorAux_calls {σ : Type} (snk : Sink σ) (it : List (Nat × Nat))
    (p : printer σ) :
    (CanConsume p = false → (fromIteratorAux snk it p).2 = []) ∧
      (∀ c ∈ (fromIteratorAux snk it p).2, CanConsume c.1 = true) ∧
      ((fromIteratorAux snk it p).2.map (fun c => c.2)) =
        it.take (fromIteratorAux snk it p).2.length := by
  unfold fromIteratorAux
  by_cases hcc : CanConsume p = false
  · rw [if_pos hcc]
    exact ⟨fun _ => rfl, (by intro c hc; cases hc), rfl⟩
  · rw [if_neg hcc]
    have hcc' : CanConsume p = true := by
      revert hcc
      cases CanConsume p <;> simp
    obtain ⟨h1, h2⟩ := fromIteratorGo_calls snk it p hcc'
    exact ⟨fun hf => absurd hf hcc, h1, h2⟩

theorem fromSeqAux_trace {σ : Type} (snk : Sink σ) (s : Printable) :
    ∀ (ps : List PositionRange) (p : printer σ),
      ((fromSeqAux snk s ps p).2.map (fun e => e.2.1)) = ps ∧
        ∀ e ∈ (fromSeqAux snk s ps p).2,
          (CanConsume e.1 = false → e.2.2 = []) ∧
            ∀ c ∈ e.2.2, CanConsume c.1 = true := by
  intro ps
  induction ps with
  | nil => intro p; exact ⟨rfl, (by intro e he; cases he)⟩
  | cons pr rest ih =>
      intro p
      obtain ⟨ih1, ih2⟩ := ih ((fromIteratorAux snk (s pr.Start pr.End) p).1)
      constructor
      · simp only [fromSeqAux, List.map_cons]
        rw [ih1]
      · intro e he
        simp only [fromSeqAux, List.mem_cons] at he
        rcases he with he | hm
        · rw [he]
          obtain ⟨a1, a2, _⟩ := fromIteratorAux_calls snk (s pr.Start pr.End) p
          exact ⟨a1, a2⟩
        · exact ih2 e hm

theorem FprintRun_settings {σ : Type} (snk : Sink σ) (w : σ) (s : Printable)
    (ps : Positions) (opts : List OptionM) :
    (FprintRun snk w s ps opts).settings = mutateSettings opts fprintDefaults := by
  unfold FprintRun fromSequenceWithPositions
  rw [Finish_settings, fromSeqAux_settings]
  rfl

theorem FwriteRun_settings {σ : Type} (snk : Sink σ) (w : σ) (ws : Writable)
    (opts : List OptionM) :
    (FwriteRun snk w ws opts).settings = mutateSettings opts fwriteDefaults := by
  unfold FwriteRun fromIterator
  rw [Finish_settings, fromIteratorAux_settings]
  rfl

theorem FprintRun_extent {σ : Type} (snk : Sink σ) (w : σ) (s : Printable)
    (ps : Positions) (opts : List OptionM) :
    (FprintRun snk w s ps opts).extent = Positions.End ps := by
  unfold FprintRun fromSequenceWithPositions
  rw [Finish_extent, fromSeqAux_extent]
  rfl

theorem FwriteRun_extent {σ : Type} (snk : Sink σ) (w : σ) (ws : Writable)
    (opts : List OptionM) :
    (FwriteRun snk w ws opts).extent = endOf ws := by
  unfold FwriteRun fromIterator
  rw [Finish_extent, fromIteratorAux_extent]
  rfl

theorem optionTarget_frame (o : OptionM) (s : printerSettings) (f : SField)
    (h : f ≠ o.target) : readField f (o.mutate s) = readField f s := by
  cases o <;> cases f <;> first | rfl | exact absurd rfl h

theorem optionTarget_sets (o : OptionM) (s : printerSettings) :
    readField o.target (o.mutate s) = o.payload := by
  cases o <;> rfl

theorem mutateSettings_untouched :
    ∀ (opts : List OptionM) (s : printerSettings) (f : SField),
      (∀ o ∈ opts, o.target ≠ f) →
        readField f (mutateSettings opts s) = readField f s := by
  intro opts
  induction opts with
  | nil => intro s f _; rfl
  | cons o rest ih =>
      intro s f hno
      have h1 : readField f (mutateSettings rest (o.mutate s)) =
          readField f (o.mutate s) :=
        ih (o.mutate s) f (fun o' hm => hno o' (List.mem_cons_of_mem _ hm))
      show readField f (mutateSettings rest (o.mutate s)) = readField f s
      rw [h1]
      exact optionTarget_frame o s f (Ne.symm (hno o (List.mem_cons_self _ _)))

theorem mutateSettings_last_wins (pre post : List OptionM) (o : OptionM)
    (s : printerSettings) (hno : ∀ o' ∈ post, o'.target ≠ o.target) :
    readField o.target (mutateSettings (pre ++ o :: post) s) = o.payload := by
  unfold mutateSettings
  rw [List.foldl_append]
  show readField o.target
    (mutateSettings post (o.mutate (mutateSettings pre s))) = o.payload
  rw [mutateSettings_untouched post _ o.target hno]
  exact optionTarget_sets o _

theorem Finish_errored {σ : Type} {snk : Sink σ} (h : NoFail snk)
    (p : printer σ) : (Finish snk p).errored = p.errored := by
  unfold Finish
  split
  · rw [emit_errored h, padN_errored h]
  · rw [padN_errored h]

theorem FprintRun_errored {σ : Type} {snk : Sink σ} (h : NoFail snk) (w : σ)
    {s : Printable} {ps : Positions} (opts : List OptionM)
    (hs : PrintableOk s) (hps : PositionsOk ps) :
    (FprintRun snk w s ps opts).errored = false := by
  unfold FprintRun fromSequenceWithPositions
  rw [Finish_errored h]
  exact (fromSeqAux_good h hs ps
    (newPrinter w (Positions.End ps) (mutateSettings opts fprintDefaults))
    hps.1 hps.2 (fun r _ => Nat.zero_le _)
    (fun r hm => mem_End_le_positionsEnd ps r hm) rfl rfl (Nat.zero_le _)).1

theorem FprintRun_rendered {σ : Type} {snk : Sink σ} (h : NoFail snk) (w : σ)
    {s : Printable} {ps : Positions} (opts : List OptionM)
    (hs : PrintableOk s) (hps : PositionsOk ps) :
    (FprintRun snk w s ps opts).rendered = List.range (Positions.End ps) := by
  unfold FprintRun fromSequenceWithPositions
  obtain ⟨g1, g2, g3⟩ := fromSeqAux_good h hs ps
    (newPrinter w (Positions.End ps) (mutateSettings opts fprintDefaults))
    hps.1 hps.2 (fun r _ => Nat.zero_le _)
    (fun r hm => mem_End_le_positionsEnd ps r hm) rfl rfl (Nat.zero_le _)
  have he : ((fromSeqAux snk s ps
      (newPrinter w (Positions.End ps) (mutateSettings opts fprintDefaults))).1).extent =
      Positions.End ps := by
    rw [fromSeqAux_extent]
    rfl
  rw [Finish_rendered h _ g1 g2 (by rw [he]; exact g3), he]

theorem FwriteRun_errored {σ : Type} {snk : Sink σ} (h : NoFail snk) (w : σ)
    {ws : Writable} (opts : List OptionM) (hws : WritableOk ws) :
    (FwriteRun snk w ws opts).errored = false := by
  unfold FwriteRun fromIterator
  rw [Finish_errored h]
  exact (fromIteratorAux_good h ws.All
    (newPrinter w (endOf ws) (mutateSettings opts fwriteDefaults)) (endOf ws)
    rfl rfl hws.1 (fun pr _ => Nat.zero_le _)
    (mem_lt_endOf ws hws) (Nat.zero_le _)).1

theorem FwriteRun_rendered {σ : Type} {snk : Sink σ} (h : NoFail snk) (w : σ)
    {ws : Writable} (opts : List OptionM) (hws : WritableOk ws) :
    (FwriteRun snk w ws opts).rendered = List.range (endOf ws) := by
  unfold FwriteRun fromIterator
  obtain ⟨g1, g2, g3⟩ := fromIteratorAux_good h ws.All
    (newPrinter w (endOf ws) (mutateSettings opts fwriteDefaults)) (endOf ws)
    rfl rfl hws.1 (fun pr _ => Nat.zero_le _)
    (mem_lt_endOf ws hws) (Nat.zero_le _)
  have he : ((fromIteratorAux snk ws.All
      (newPrinter w (endOf ws) (mutateSettings opts fwriteDefaults))).1).extent =
      endOf ws := by
    rw [fromIteratorAux_extent]
    rfl
  rw [Finish_rendered h _ g1 g2 (by rw [he]; exact g3), he]

@[simp] theorem setBuf_errored {σ : Type} (b : Int) (p : printer σ) :
    (setBuf b p).errored = p.errored := rfl

@[simp] theorem setBuf_cursor {σ : Type} (b : Int) (p : printer σ) :
    (setBuf b p).cursor = p.cursor := rfl

@[simp] theorem setBuf_extent {σ : Type} (b : Int) (p : printer σ) :
    (setBuf b p).extent = p.extent := rfl

@[simp] theorem setBuf_sinkState {σ : Type} (b : Int) (p : printer σ) :
    (setBuf b p).sinkState = p.sinkState := rfl

@[simp] theorem setBuf_bytesWritten {σ : Type} (b : Int) (p : printer σ) :
    (setBuf b p).bytesWritten = p.bytesWritten := rfl

@[simp] theorem setBuf_rendered {σ : Type} (b : Int) (p : printer σ) :
    (setBuf b p).rendered = p.rendered := rfl

@[simp] theorem setBuf_missingDigit {σ : Type} (b : Int) (p : printer σ) :
    (setBuf b p).settings.missingDigit = p.settings.missingDigit := rfl

@[simp] theorem setBuf_leadingDecimal {σ : Type} (b : Int) (p : printer σ) :
    (setBuf b p).settings.leadingDecimal = p.settings.leadingDecimal := rfl

@[simp] theorem setBuf_showCount {σ : Type} (b : Int) (p : printer σ) :
    (setBuf b p).settings.showCount = p.settings.showCount := rfl

@[simp] theorem setBuf_trailingLineFeed {σ : Type} (b : Int) (p : printer σ) :
    (setBuf b p).settings.trailingLineFeed = p.settings.trailingLineFeed := rfl

@[simp] theorem rowStart_setBuf {σ : Type} (b : Int) (p : printer σ) (pos : Nat) :
    rowStart (setBuf b p).settings pos = rowStart p.settings pos := rfl

@[simp] theorem colSep_setBuf {σ : Type} (b : Int) (p : printer σ) (pos : Nat) :
    colSep (setBuf b p).settings pos = colSep p.settings pos := rfl

@[simp] theorem innerRowBreak_setBuf {σ : Type} (b : Int) (p : printer σ)
    (extent pos : Nat) :
    innerRowBreak (setBuf b p).settings extent pos =
      innerRowBreak p.settings extent pos := rfl

theorem CanConsume_setBuf {σ : Type} (b : Int) (p : printer σ) :
    CanConsume (setBuf b p) = CanConsume p := rfl

theorem emit_setBuf {σ : Type} (snk : Sink σ) (b : Int) (p : printer σ)
    (s : String) : emit snk (setBuf b p) s = setBuf b (emit snk p s) := by
  cases h : p.errored <;> simp [emit, setBuf, h]

theorem emitSlot_setBuf {σ : Type} (snk : Sink σ) (b : Int) (p : printer σ)
    (pos : Nat) (c : Char) :
    emitSlot snk (setBuf b p) pos c = setBuf b (emitSlot snk p pos c) := by
  cases h : p.errored <;> simp [emitSlot, setBuf, h]

theorem renderAt_setBuf {σ : Type} (snk : Sink σ) (b : Int) (p : printer σ)
    (pos : Nat) (c : Char) :
    renderAt snk (setBuf b p) pos c = setBuf b (renderAt snk p pos c) := by
  unfold renderAt
  simp only [rowStart_setBuf, colSep_setBuf, innerRowBreak_setBuf,
    setBuf_leadingDecimal, setBuf_showCount, setBuf_extent]
  split <;> split <;> split <;> split <;>
    simp [emit_setBuf, emitSlot_setBuf]

theorem setBuf_withCursor {σ : Type} (b : Int) (q : printer σ) (v : Nat) :
    ({ setBuf b q with cursor := v } : printer σ) =
      setBuf b ({ q with cursor := v } : printer σ) := rfl

theorem padN_setBuf {σ : Type} (snk : Sink σ) (b : Int) :
    ∀ (n : Nat) (p : printer σ),
      padN snk n (setBuf b p) = setBuf b (padN snk n p) := by
  intro n
  induction n with
  | zero => intro p; rfl
  | succ m ih =>
      intro p
      rw [padN, padN]
      rw [show (setBuf b p).cursor = p.cursor from rfl,
        show (setBuf b p).settings.missingDigit = p.settings.missingDigit from rfl,
        renderAt_setBuf, setBuf_withCursor, ih]

theorem Consume_setBuf {σ : Type} (snk : Sink σ) (b : Int) (p : printer σ)
    (posit digit : Nat) :
    Consume snk (setBuf b p) posit digit = setBuf b (Consume snk p posit digit) := by
  unfold Consume
  rw [show (setBuf b p).cursor = p.cursor from rfl]
  by_cases hlt : posit < p.cursor
  · rw [if_pos hlt, if_pos hlt]; rfl
  · rw [if_neg hlt, if_neg hlt, padN_setBuf, renderAt_setBuf, setBuf_withCursor]

theorem fromIteratorGo_setBuf {σ : Type} (snk : Sink σ) (b : Int) :
    ∀ (it : List (Nat × Nat)) (p : printer σ),
      (fromIteratorGo snk it (setBuf b p)).1 =
        setBuf b ((fromIteratorGo snk it p).1) := by
  intro it
  induction it with
  | nil => intro p; rfl
  | cons hd tl ih =>
      intro p
      obtain ⟨posit, digit⟩ := hd
      simp only [fromIteratorGo]
      rw [Consume_setBuf, CanConsume_setBuf]
      by_cases hcc : CanConsume (Consume snk p posit digit) = false
      · rw [if_pos hcc, if_pos hcc]
      · rw [if_neg hcc, if_neg hcc]
        exact ih (Consume snk p posit digit)

theorem fromIteratorAux_setBuf {σ : Type} (snk : Sink σ) (b : Int)
    (it : List (Nat × Nat)) (p : printer σ) :
    (fromIteratorAux snk it (setBuf b p)).1 =
      setBuf b ((fromIteratorAux snk it p).1) := by
  unfold fromIteratorAux
  rw [CanConsume_setBuf]
  by_cases hcc : CanConsume p = false
  · rw [if_pos hcc, if_pos hcc]
  · rw [if_neg hcc, if_neg hcc]
    exact fromIteratorGo_setBuf snk b it p

theorem fromSeqAux_setBuf {σ : Type} (snk : Sink σ) (s : Printable) (b : Int) :
    ∀ (ps : List PositionRange) (p : printer σ),
      (fromSeqAux snk s ps (setBuf b p)).1 =
        setBuf b ((fromSeqAux snk s ps p).1) := by
  intro ps
  induction ps with
  | nil => intro p; rfl
  | cons pr rest ih =>
      intro p
      show (fromSeqAux snk s rest
          ((fromIteratorAux snk (s pr.Start pr.End) (setBuf b p)).1)).1 =
        setBuf b ((fromSeqAux snk s rest
          ((fromIteratorAux snk (s pr.Start pr.End) p).1)).1)
      rw [fromIteratorAux_setBuf]
      exact ih ((fromIteratorAux snk (s pr.Start pr.End) p).1)

theorem Finish_setBuf {σ : Type} (snk : Sink σ) (b : Int) (p : printer σ) :
    Finish snk (setBuf b p) = setBuf b (Finish snk p) := by
  unfold Finish
  rw [show (setBuf b p).settings.trailingLineFeed = p.settings.trailingLineFeed
    from rfl,
    show (setBuf b p).extent = p.extent from rfl,
    show (setBuf b p).cursor = p.cursor from rfl]
  by_cases hlf : p.settings.trailingLineFeed = true
  · rw [if_pos hlf, if_pos hlf, padN_setBuf, emit_setBuf]
  · rw [if_neg hlf, if_neg hlf, padN_setBuf]

theorem mutateSettings_append_buf (opts : List OptionM) (d : printerSettings)
    (n : Int) :
    mutateSettings (opts ++ [OptionM.bufferSize n]) d =
      { mutateSettings opts d with bufferSize := n } := by
  unfold mutateSettings
  rw [List.foldl_append]
  rfl

theorem FprintRun_setBuf {σ : Type} (snk : Sink σ) (w : σ) (s : Printable)
    (ps : Positions) (opts : List OptionM) (n : Int) :
    FprintRun snk w s ps (opts ++ [OptionM.bufferSize n]) =
      setBuf n (FprintRun snk w s ps opts) := by
  unfold FprintRun fromSequenceWithPositions
  rw [mutateSettings_append_buf]
  rw [show newPrinter w (Positions.End ps)
      ({ mutateSettings opts fprintDefaults with bufferSize := n }) =
    setBuf n (newPrinter w (Positions.End ps) (mutateSettings opts fprintDefaults))
    from rfl]
  rw [fromSeqAux_setBuf, Finish_setBuf]

theorem FwriteRun_setBuf {σ : Type} (snk : Sink σ) (w : σ) (ws : Writable)
    (opts : List OptionM) (n : Int) :
    FwriteRun snk w ws (opts ++ [OptionM.bufferSize n]) =
      setBuf n (FwriteRun snk w ws opts) := by
  unfold FwriteRun fromIterator
  rw [mutateSettings_append_buf]
  rw [show newPrinter w (endOf ws)
      ({ mutateSettings opts fwriteDefaults with bufferSize := n }) =
    setBuf n (newPrinter w (endOf ws) (mutateSettings opts fwriteDefaults))
    from rfl]
  rw [fromIteratorAux_setBuf, Finish_setBuf]

/-- C1: for every `Fprint` or `Fwrite` invocation whose destination
sink never fails, driving a contract-respecting source and then
calling `Finish` emits a digit slot (real digit or placeholder) for
exactly the positions `0 .. extent-1`, in order: the ghost slot trace
equals `List.range extent`.  In particular `Finish` pads every
position still missing when it is called, so the output spans exactly
the advertised extent. -/
theorem C1_output_spans_extent {σ : Type} (snk : Sink σ) (h : NoFail snk) :
    (∀ (w : σ) (s : Printable) (ps : Positions) (opts : List OptionM),
        PrintableOk s → PositionsOk ps →
        (FprintRun snk w s ps opts).rendered = List.range (Positions.End ps)) ∧
      (∀ (w : σ) (ws : Writable) (opts : List OptionM), WritableOk ws →
        (FwriteRun snk w ws opts).rendered = List.range (endOf ws)) ∧
      (∀ p : printer σ, p.errored = false → p.rendered = List.range p.cursor →
        p.cursor ≤ p.extent →
        (Finish snk p).rendered = List.range p.extent) := by
  refine ⟨?_, ?_, ?_⟩
  · intro w s ps opts hs hps
    exact FprintRun_rendered h w opts hs hps
  · intro w ws opts hws
    exact FwriteRun_rendered h w opts hws
  · intro p h1 h2 h3
    exact Finish_rendered h p h1 h2 h3

theorem C1_witness :
    NoFail builderSink ∧
      (FprintRun builderSink "" (fun _ _ => []) [⟨0, 2⟩] []).rendered =
        List.range 2 ∧
      (FwriteRun builderSink "" ⟨[(0, 3), (1, 1)], [(1, 1), (0, 3)]⟩ []).rendered =
        List.range 2 := by
  have hnf : NoFail builderSink := fun st s => rfl
  have hs : PrintableOk (fun _ _ => []) := by
    intro a b
    exact ⟨List.Pairwise.nil, (by intro pr hm; cases hm)⟩
  have hps : PositionsOk [⟨0, 2⟩] := by
    refine ⟨List.pairwise_singleton _ _, ?_⟩
    intro r hm
    rw [List.mem_singleton] at hm
    subst hm
    exact Nat.zero_le _
  have hws : WritableOk ⟨[(0, 3), (1, 1)], [(1, 1), (0, 3)]⟩ := by
    constructor
    · refine List.Pairwise.cons ?_ (List.pairwise_singleton _ _)
      intro y hy
      rw [List.mem_singleton] at hy
      subst hy
      decide
    · rfl
  exact ⟨hnf,
    (C1_output_spans_extent builderSink hnf).1 "" (fun _ _ => []) [⟨0, 2⟩] [] hs hps,
    (C1_output_spans_extent builderSink hnf).2.1 ""
      ⟨[(0, 3), (1, 1)], [(1, 1), (0, 3)]⟩ [] hws⟩

/-- C2: the driving loop `fromIterator` pulls no input when
`CanConsume` is false at entry (the trace of `Consume` calls is
empty), every `Consume` call happens in a state where `CanConsume` is
true, and the pairs consumed are exactly the first elements of the
iterator up to the point where `CanConsume` turned false — so no pair
is ever passed to `Consume` while `CanConsume` is false. -/
theorem C2_fromIterator_polls_canConsume {σ : Type} (snk : Sink σ)
    (it : List (Nat × Nat)) (p : printer σ) :
    (CanConsume p = false → (fromIteratorAux snk it p).2 = []) ∧
      (∀ c ∈ (fromIteratorAux snk it p).2, CanConsume c.1 = true) ∧
      ((fromIteratorAux snk it p).2.map (fun c => c.2)) =
        it.take (fromIteratorAux snk it p).2.length :=
  fromIteratorAux_calls snk it p

theorem C2_witness :
    CanConsume cexPrinter = false ∧
      (fromIteratorAux builderSink [(0, 5), (1, 6)] cexPrinter).2 = [] ∧
      ((fromIteratorAux builderSink [(0, 5), (1, 6)]
          (newPrinter "" 2 fprintDefaults)).2.map (fun c => c.2)) =
        ([(0, 5), (1, 6)] : List (Nat × Nat)).take
          (fromIteratorAux builderSink [(0, 5), (1, 6)]
            (newPrinter "" 2 fprintDefaults)).2.length :=
  ⟨rfl,
    (C2_fromIterator_polls_canConsume builderSink [(0, 5), (1, 6)] cexPrinter).1 rfl,
    (C2_fromIterator_polls_canConsume builderSink [(0, 5), (1, 6)]
      (newPrinter "" 2 fprintDefaults)).2.2⟩

/-- C3 as stated is false on the code: with an engine that can no
longer consume (`cexPrinter` has extent 0, so `CanConsume` is false
from the start), the range-driving loop still queries the source's
`AllInRange` for every range of the set — both ranges of `cexPs`
appear in the query trace with `CanConsume` false at each query —
contradicting that once `CanConsume` is false no further range is
queried from the source. -/
theorem C3_counterexample :
    CanConsume cexPrinter = false ∧
      ((fromSeqAux builderSink cexSource cexPs cexPrinter).2.map
        (fun e => e.2.1)) = cexPs ∧
      ((fromSeqAux builderSink cexSource cexPs cexPrinter).2.map
        (fun e => CanConsume e.1)) = [false, false] :=
  ⟨rfl, rfl, rfl⟩

/-- C3 (amended): range-based print iterates the range set's ranges
in order, invoking `AllInRange` once per range (even after
`CanConsume` has become false), but once `CanConsume` is false no
input is pulled from the returned sequence and no pair is passed to
`Consume`: a range entered with `CanConsume` false contributes no
`Consume` calls, and every `Consume` call anywhere in the run happens
while `CanConsume` is true. -/
theorem C3_ranges_in_order_no_pull_when_stopped {σ : Type} (snk : Sink σ)
    (s : Printable) (ps : Positions) (p : printer σ) :
    ((fromSeqAux snk s ps p).2.map (fun e => e.2.1)) = ps ∧
      (∀ e ∈ (fromSeqAux snk s ps p).2,
        (CanConsume e.1 = false → e.2.2 = []) ∧
          ∀ c ∈ e.2.2, CanConsume c.1 = true) ∧
      fromSequenceWithPositions snk s ps p = (fromSeqAux snk s ps p).1 := by
  obtain ⟨h1, h2⟩ := fromSeqAux_trace snk s ps p
  exact ⟨h1, h2, rfl⟩

theorem C3_witness :
    ((fromSeqAux builderSink cexSource cexPs cexPrinter).2.map
      (fun e => e.2.1)) = cexPs ∧
      cexEntry.2.2 = [] := by
  have h := C3_ranges_in_order_no_pull_when_stopped builderSink cexSource
    cexPs cexPrinter
  refine ⟨h.1, ?_⟩
  have hm : cexEntry ∈ (fromSeqAux builderSink cexSource cexPs cexPrinter).2 := by
    decide
  exact (h.2.1 cexEntry hm).1 (by decide)

/-- C4: the extent used by `Fwrite` is computed by `endOf` from the
backward traversal: a first backward pair at position `pos` gives
extent `pos + 1`, an empty backward traversal gives extent 0, and the
engine of the `Fwrite` run is constructed with exactly that extent. -/
theorem C4_extent_from_backward {σ : Type} (ws : Writable) :
    (ws.Backward = [] → endOf ws = 0) ∧
      (∀ (pos d : Nat) (rest : List (Nat × Nat)),
        ws.Backward = (pos, d) :: rest → endOf ws = pos + 1) ∧
      (∀ (snk : Sink σ) (w : σ) (opts : List OptionM),
        (FwriteRun snk w ws opts).extent = endOf ws) := by
  refine ⟨?_, ?_, ?_⟩
  · intro hb
    unfold endOf
    rw [hb]
  · intro pos d rest hb
    unfold endOf
    rw [hb]
  · intro snk w opts
    exact FwriteRun_extent snk w ws opts

theorem C4_witness :
    endOf ⟨[(0, 3), (1, 1)], [(1, 1), (0, 3)]⟩ = 2 ∧
      endOf ⟨[], []⟩ = 0 ∧
      (FwriteRun builderSink "" ⟨[(0, 3), (1, 1)], [(1, 1), (0, 3)]⟩ []).extent = 2 := by
  refine ⟨?_, ?_, ?_⟩
  · exact (@C4_extent_from_backward String
      ⟨[(0, 3), (1, 1)], [(1, 1), (0, 3)]⟩).2.1 1 1 [(0, 3)] rfl
  · exact (@C4_extent_from_backward String ⟨[], []⟩).1 rfl
  · exact ((@C4_extent_from_backward String
      ⟨[(0, 3), (1, 1)], [(1, 1), (0, 3)]⟩).2.2 builderSink "" []).trans
      ((@C4_extent_from_backward String
        ⟨[(0, 3), (1, 1)], [(1, 1), (0, 3)]⟩).2.1 1 1 [(0, 3)] rfl)

/-- C5: with no options, `Fprint` seeds exactly 50 digits per row, 5
digits per column, count margin shown, '.' as the missing-digit
glyph, no trailing line feed, leading decimal shown (and the Go zero
value 0 for the internal buffer hint), and the engine of an
option-less `Fprint` run carries exactly these settings. -/
theorem C5_fprint_default_settings {σ : Type} :
    fprintDefaults =
        ({ digitsPerRow := 50, digitsPerColumn := 5, showCount := true,
           missingDigit := '.', trailingLineFeed := false,
           leadingDecimal := true, bufferSize := 0 } : printerSettings) ∧
      ∀ (snk : Sink σ) (w : σ) (s : Printable) (ps : Positions),
        (FprintRun snk w s ps []).settings =
          ({ digitsPerRow := 50, digitsPerColumn := 5, showCount := true,
             missingDigit := '.', trailingLineFeed := false,
             leadingDecimal := true, bufferSize := 0 } : printerSettings) := by
  refine ⟨rfl, ?_⟩
  intro snk w s ps
  rw [FprintRun_settings]
  rfl

/-- C6: with no options, `Fwrite` seeds exactly 50 digits per row, 5
digits per column, count margin shown, '.' as the missing-digit
glyph, trailing line feed on, no leading decimal (and the Go zero
value 0 for the internal buffer hint), and the engine of an
option-less `Fwrite` run carries exactly these settings. -/
theorem C6_fwrite_default_settings {σ : Type} :
    fwriteDefaults =
        ({ digitsPerRow := 50, digitsPerColumn := 5, showCount := true,
           missingDigit := '.', trailingLineFeed := true,
           leadingDecimal := false, bufferSize := 0 } : printerSettings) ∧
      ∀ (snk : Sink σ) (w : σ) (ws : Writable),
        (FwriteRun snk w ws []).settings =
          ({ digitsPerRow := 50, digitsPerColumn := 5, showCount := true,
             missingDigit := '.', trailingLineFeed := true,
             leadingDecimal := false, bufferSize := 0 } : printerSettings) := by
  refine ⟨rfl, ?_⟩
  intro snk w ws
  rw [FwriteRun_settings]
  rfl

/-- C7: options are an ordered list of single-field mutations over a
defaults-seeded settings record: each option leaves every field other
than its target unchanged and stores its payload into its target;
applying a list in call order makes the last option on a field win
(the final value of the field is that option's payload whenever no
later option targets the same field); and a field targeted by no
option in the list keeps its seeded value. -/
theorem C7_options_ordered_mutations :
    (∀ (o : OptionM) (s : printerSettings) (f : SField), f ≠ o.target →
        readField f (o.mutate s) = readField f s) ∧
      (∀ (o : OptionM) (s : printerSettings),
        readField o.target (o.mutate s) = o.payload) ∧
      (∀ (pre post : List OptionM) (o : OptionM) (s : printerSettings),
        (∀ o' ∈ post, o'.target ≠ o.target) →
          readField o.target (mutateSettings (pre ++ o :: post) s) = o.payload) ∧
      (∀ (opts : List OptionM) (s : printerSettings) (f : SField),
        (∀ o ∈ opts, o.target ≠ f) →
          readField f (mutateSettings opts s) = readField f s) :=
  ⟨optionTarget_frame, optionTarget_sets, mutateSettings_last_wins,
    mutateSettings_untouched⟩

theorem C7_witness :
    readField SField.rowF
        (mutateSettings [OptionM.DigitsPerRow 10, OptionM.DigitsPerColumn 3,
          OptionM.DigitsPerRow 7] fprintDefaults) = SFieldVal.ofInt 7 ∧
      readField SField.trailingF
        (mutateSettings [OptionM.DigitsPerRow 10, OptionM.DigitsPerColumn 3,
          OptionM.DigitsPerRow 7] fprintDefaults) =
        readField SField.trailingF fprintDefaults ∧
      readField SField.colF
        (OptionM.mutate (OptionM.DigitsPerColumn 3) fprintDefaults) =
        SFieldVal.ofInt 3 ∧
      readField SField.missingF
        (OptionM.mutate (OptionM.DigitsPerColumn 3) fprintDefaults) =
        readField SField.missingF fprintDefaults := by
  refine ⟨?_, ?_, ?_, ?_⟩
  · exact C7_options_ordered_mutations.2.2.1
      [OptionM.DigitsPerRow 10, OptionM.DigitsPerColumn 3] []
      (OptionM.DigitsPerRow 7) fprintDefaults (by intro o' hm; cases hm)
  · exact C7_options_ordered_mutations.2.2.2
      [OptionM.DigitsPerRow 10, OptionM.DigitsPerColumn 3, OptionM.DigitsPerRow 7]
      fprintDefaults SField.trailingF (by decide)
  · exact C7_options_ordered_mutations.2.1 (OptionM.DigitsPerColumn 3) fprintDefaults
  · exact C7_options_ordered_mutations.1 (OptionM.DigitsPerColumn 3) fprintDefaults
      SField.missingF (by decide)

/-- C8: `Sprint` and `Swrite` never fail visibly: they return the
string accumulated in the in-memory builder sink by running the
`Fprint` (resp. `Fwrite`) pipeline against it, and the run's
(bytes, error) result is dropped rather than surfaced.  The builder
sink never fails a write, so for contract-respecting sources the
swallowed error is in fact absent. -/
theorem C8_string_entry_points_swallow_errors :
    NoFail builderSink ∧
      (∀ (s : Printable) (ps : Positions) (opts : List OptionM),
        Sprint s ps opts = (FprintRun builderSink "" s ps opts).sinkState) ∧
      (∀ (ws : Writable) (opts : List OptionM),
        Swrite ws opts = (FwriteRun builderSink "" ws opts).sinkState) ∧
      (∀ (s : Printable) (ps : Positions) (opts : List OptionM),
        PrintableOk s → PositionsOk ps →
          Err (FprintRun builderSink "" s ps opts) = false) ∧
      (∀ (ws : Writable) (opts : List OptionM), WritableOk ws →
        Err (FwriteRun builderSink "" ws opts) = false) := by
  have hnf : NoFail builderSink := fun st s => rfl
  refine ⟨hnf, fun s ps opts => rfl, fun ws opts => rfl, ?_, ?_⟩
  · intro s ps opts hs hps
    exact FprintRun_errored hnf "" opts hs hps
  · intro ws opts hws
    exact FwriteRun_errored hnf "" opts hws

theorem C8_witness :
    Sprint (fun _ _ => []) [⟨0, 2⟩] [] =
        (FprintRun builderSink "" (fun _ _ => []) [⟨0, 2⟩] []).sinkState ∧
      Err (FprintRun builderSink "" (fun _ _ => []) [⟨0, 2⟩] []) = false ∧
      Err (FwriteRun builderSink "" ⟨[(0, 3), (1, 1)], [(1, 1), (0, 3)]⟩ []) =
        false := by
  have hs : PrintableOk (fun _ _ => []) := by
    intro a b
    exact ⟨List.Pairwise.nil, (by intro pr hm; cases hm)⟩
  have hps : PositionsOk [⟨0, 2⟩] := by
    refine ⟨List.pairwise_singleton _ _, ?_⟩
    intro r hm
    rw [List.mem_singleton] at hm
    subst hm
    exact Nat.zero_le _
  have hws : WritableOk ⟨[(0, 3), (1, 1)], [(1, 1), (0, 3)]⟩ := by
    constructor
    · refine List.Pairwise.cons ?_ (List.pairwise_singleton _ _)
      intro y hy
      rw [List.mem_singleton] at hy
      subst hy
      decide
    · rfl
  exact ⟨C8_string_entry_points_swallow_errors.2.1 (fun _ _ => []) [⟨0, 2⟩] [],
    C8_string_entry_points_swallow_errors.2.2.2.1 (fun _ _ => []) [⟨0, 2⟩] [] hs hps,
    C8_string_entry_points_swallow_errors.2.2.2.2
      ⟨[(0, 3), (1, 1)], [(1, 1), (0, 3)]⟩ [] hws⟩

/-- C9: the internal buffer-size hint is inert for rendering: the
`bufferSize` option mutates only the `bufferSize` settings field, and
appending it to any option list changes the final engine state of
`Fprint`/`Fwrite` only in that stored field (`setBuf`), so the
accumulated output of `Sprint`/`Swrite` and the (bytes, error)
results of `Fprint`/`Fwrite` are unchanged — the hint has no effect
on the rendered text of any entry point. -/
theorem C9_bufferSize_hint_inert {σ : Type} :
    (∀ (s : printerSettings) (n : Int),
        OptionM.mutate (OptionM.bufferSize n) s = { s with bufferSize := n }) ∧
      (∀ (snk : Sink σ) (w : σ) (s : Printable) (ps : Positions)
          (opts : List OptionM) (n : Int),
        FprintRun snk w s ps (opts ++ [OptionM.bufferSize n]) =
          setBuf n (FprintRun snk w s ps opts)) ∧
      (∀ (snk : Sink σ) (w : σ) (ws : Writable) (opts : List OptionM) (n : Int),
        FwriteRun snk w ws (opts ++ [OptionM.bufferSize n]) =
          setBuf n (FwriteRun snk w ws opts)) ∧
      (∀ (s : Printable) (ps : Positions) (opts : List OptionM) (n : Int),
        Sprint s ps (opts ++ [OptionM.bufferSize n]) = Sprint s ps opts) ∧
      (∀ (ws : Writable) (opts : List OptionM) (n : Int),
        Swrite ws (opts ++ [OptionM.bufferSize n]) = Swrite ws opts) ∧
      (∀ (snk : Sink σ) (w : σ) (s : Printable) (ps : Positions)
          (opts : List OptionM) (n : Int),
        Fprint snk w s ps (opts ++ [OptionM.bufferSize n]) =
          Fprint snk w s ps opts) ∧
      (∀ (snk : Sink σ) (w : σ) (ws : Writable) (opts : List OptionM) (n : Int),
        Fwrite snk w ws (opts ++ [OptionM.bufferSize n]) = Fwrite snk w ws opts) := by
  refine ⟨fun s n => rfl, ?_, ?_, ?_, ?_, ?_, ?_⟩
  · intro snk w s ps opts n
    exact FprintRun_setBuf snk w s ps opts n
  · intro snk w ws opts n
    exact FwriteRun_setBuf snk w ws opts n
  · intro s ps opts n
    unfold Sprint
    rw [FprintRun_setBuf]
    rfl
  · intro ws opts n
    unfold Swrite
    rw [FwriteRun_setBuf]
    rfl
  · intro snk w s ps opts n
    unfold Fprint BytesWritten Err
    rw [FprintRun_setBuf]
    rfl
  · intro snk w ws opts n
    unfold Fwrite BytesWritten Err
    rw [FwriteRun_setBuf]
    rfl

/-- C10: `endOf` inspects only the first element of the backward
traversal: the instrumented driver pulls at most one element (and
agrees with `endOf`), and any two `Writable` sources whose backward
traversals have the same first element get the same extent — no
second element is ever requested, regardless of what follows. -/
theorem C10_endOf_pulls_first_only (ws : Writable) :
    (endOfAux ws.Backward).2 ≤ 1 ∧
      (endOfAux ws.Backward).1 = endOf ws ∧
      ∀ ws' : Writable, ws.Backward.head? = ws'.Backward.head? →
        endOf ws = endOf ws' := by
  refine ⟨?_, ?_, ?_⟩
  · cases h : ws.Backward with
    | nil => decide
    | cons hd tl =>
        obtain ⟨a, b⟩ := hd
        exact Nat.le_refl 1
  · cases h : ws.Backward with
    | nil => unfold endOf endOfAux; rw [h]
    | cons hd tl =>
        obtain ⟨a, b⟩ := hd
        unfold endOf endOfAux
        rw [h]
  · intro ws' hh
    cases h1 : ws.Backward with
    | nil =>
        cases h2 : ws'.Backward with
        | nil => unfold endOf; rw [h1, h2]
        | cons hd tl => rw [h1, h2] at hh; simp at hh
    | cons hd tl =>
        cases h2 : ws'.Backward with
        | nil => rw [h1, h2] at hh; simp at hh
        | cons hd' tl' =>
            rw [h1, h2] at hh
            simp at hh
            obtain ⟨a, b⟩ := hd
            obtain ⟨a', b'⟩ := hd'
            unfold endOf
            rw [h1, h2, hh]

theorem C10_witness :
    (endOfAux (Writable.Backward ⟨[(0, 3), (1, 1)], [(1, 1), (0, 3)]⟩)).2 ≤ 1 ∧
      endOf ⟨[(0, 9)], [(0, 9)]⟩ = endOf ⟨[], [(0, 9), (7, 7)]⟩ :=
  ⟨(C10_endOf_pulls_first_only ⟨[(0, 3), (1, 1)], [(1, 1), (0, 3)]⟩).1,
    (C10_endOf_pulls_first_only ⟨[(0, 9)], [(0, 9)]⟩).2.2
      ⟨[], [(0, 9), (7, 7)]⟩ rfl⟩
